import Mathlib

/-!
# Verification of the Acoustic Feature Extraction & Rule-Based Emotion
# Classification Engine (`utils/audio_analyzer.py`)

This file shallowly embeds the core of the audio analyzer: the per-segment
feature set, the priority-ordered rule classifier (`_classify_emotion`), the
5-second segmenter (`_detect_emotions`), the whole-clip tone and pattern
analysis (`_analyze_tone`, `_estimate_speaking_rate`,
`_calculate_pause_frequency`, `_analyze_speech_patterns`), the aggregation of
the per-segment emotions (`_determine_overall_mood`, `_calculate_confidence`),
the top-level driver (`analyze_audio`) and the persistence record built by
`generate_emotion_report`.

Python floats are modelled as real numbers; scalar features are kept generic
over a `LinearOrderedField` so that purely arithmetic components (the rule
classifier, the aggregators) can also be evaluated over `ℚ` on concrete
inputs.  The signal transforms invoked from the external `librosa` library
(pitch tracking, RMS energy, spectral centroid, MFCC, tempo tracking) are not
part of this repository; they are modelled from the spec where a concrete
model is needed (see the individual doc comments).
-/

namespace AudioAnalyzerSpec

/-- The per-segment feature mapping produced by
`AudioAnalyzer._extract_emotion_features`: the eight scalar features the
source stores under the keys `pitch_mean`, `pitch_std`, `energy_mean`,
`energy_std`, `spectral_centroid_mean`, `mfcc_mean`, `mfcc_std`, `zcr_mean`. -/
structure FeatureSet (K : Type*) where
  pitch_mean : K
  pitch_std : K
  energy_mean : K
  energy_std : K
  spectral_centroid_mean : K
  mfcc_mean : K
  mfcc_std : K
  zcr_mean : K

/-- One entry of the emotion timeline (`EmotionResult` dataclass in the
source): an emotion label, its confidence and the segment timestamp. -/
structure EmotionResult (K : Type*) where
  emotion : String
  confidence : K
  timestamp : K

variable {K : Type*} [LinearOrderedField K]

/-- Embedding of `AudioAnalyzer._classify_emotion`: the if/elif ladder over
`pitch_mean`, `energy_mean` and `spectral_centroid_mean`, returning an
`(emotion, confidence)` pair.  (The source reads the three features with
`dict.get(key, 0)`; the `FeatureSet` record always carries all keys, as the
extractor always writes them.) -/
def classify_emotion (f : FeatureSet K) : String × K :=
  if f.energy_mean > 0.1 ∧ f.pitch_mean > 200 then ("excited", 0.8)
  else if f.energy_mean > 0.08 ∧ f.spectral_centroid_mean > 2000 then ("happy", 0.7)
  else if f.energy_mean < 0.05 ∧ f.pitch_mean < 150 then ("sad", 0.6)
  else if f.energy_mean > 0.12 ∧ f.spectral_centroid_mean > 3000 then ("angry", 0.7)
  else if f.energy_mean < 0.03 then ("calm", 0.8)
  else ("neutral", 0.5)

/-- The classifier's decision list made explicit: the six rules of the spec in
priority order, each as a `(predicate, label, confidence)` entry.  The sixth,
catch-all rule is the default of `applyRules`. -/
def ruleTable : List ((FeatureSet K → Bool) × String × K) :=
  [ (fun f => decide (f.energy_mean > 0.1 ∧ f.pitch_mean > 200), "excited", 0.8),
    (fun f => decide (f.energy_mean > 0.08 ∧ f.spectral_centroid_mean > 2000), "happy", 0.7),
    (fun f => decide (f.energy_mean < 0.05 ∧ f.pitch_mean < 150), "sad", 0.6),
    (fun f => decide (f.energy_mean > 0.12 ∧ f.spectral_centroid_mean > 3000), "angry", 0.7),
    (fun f => decide (f.energy_mean < 0.03), "calm", 0.8) ]

/-- Evaluate an ordered decision list top-to-bottom: the first rule whose
predicate holds wins; if none matches, the result is the default
`("neutral", 0.5)` of the source's final `else`. -/
def applyRules : List ((FeatureSet K → Bool) × String × K) → FeatureSet K → String × K
  | [], _ => ("neutral", 0.5)
  | (p, lc) :: rest, f => if p f then lc else applyRules rest f

/-- **C1.** The emotion classifier evaluates the six fixed rules in the
spec's priority order (excited, happy, sad, angry, calm, neutral) and returns
the `(label, confidence)` pair of the first rule whose predicate holds; in
particular every `FeatureSet` satisfying both rule 1's predicate and rule 2's
predicate resolves to rule 1's result `("excited", 0.8)`. -/
theorem classify_emotion_first_match (f : FeatureSet K) :
    classify_emotion f = applyRules ruleTable f ∧
    ((f.energy_mean > 0.1 ∧ f.pitch_mean > 200) →
      (f.energy_mean > 0.08 ∧ f.spectral_centroid_mean > 2000) →
      classify_emotion f = ("excited", 0.8)) := by
  constructor
  · simp only [classify_emotion, applyRules, ruleTable, decide_eq_true_eq]
  · intro h1 _
    simp only [classify_emotion, if_pos h1]

/-- Witness for C1 at a concrete feature set satisfying both rule 1's and
rule 2's predicates. -/
theorem classify_emotion_first_match_witness :
    classify_emotion (⟨300, 0, 0.2, 0, 2500, 0, 0, 0⟩ : FeatureSet ℚ) = ("excited", 0.8) :=
  (classify_emotion_first_match (⟨300, 0, 0.2, 0, 2500, 0, 0, 0⟩ : FeatureSet ℚ)).2
    (by constructor <;> norm_num) (by constructor <;> norm_num)

/-- **C10.** The `"angry"` branch of the classifier is unreachable: rule 4's
predicate implies rule 2's predicate, so the classifier never returns the
label `"angry"`. -/
theorem classify_emotion_never_angry (f : FeatureSet K) :
    ((f.energy_mean > 0.12 ∧ f.spectral_centroid_mean > 3000) →
      (f.energy_mean > 0.08 ∧ f.spectral_centroid_mean > 2000)) ∧
    (classify_emotion f).1 ≠ "angry" := by
  constructor
  · rintro ⟨he, hc⟩
    constructor
    · calc (0.08 : K) < 0.12 := by norm_num
        _ < f.energy_mean := he
    · calc (2000 : K) < 3000 := by norm_num
        _ < f.spectral_centroid_mean := hc
  · unfold classify_emotion
    split_ifs with h1 h2 h3 h4 h5
    · show ("excited" : String) ≠ "angry"
      decide
    · show ("happy" : String) ≠ "angry"
      decide
    · show ("sad" : String) ≠ "angry"
      decide
    · exact absurd ⟨lt_trans (by norm_num) h4.1, lt_trans (by norm_num) h4.2⟩ h2
    · show ("calm" : String) ≠ "angry"
      decide
    · show ("neutral" : String) ≠ "angry"
      decide

/-- Witness for C10 at a concrete feature set satisfying rule 4's predicate
(the classifier sends it to rule 2, `"happy"`, instead). -/
theorem classify_emotion_never_angry_witness :
    (((0.2 : ℚ) > 0.12 ∧ (3500 : ℚ) > 3000) → ((0.2 : ℚ) > 0.08 ∧ (3500 : ℚ) > 2000)) ∧
    (classify_emotion (⟨0, 0, 0.2, 0, 3500, 0, 0, 0⟩ : FeatureSet ℚ)).1 ≠ "angry" :=
  classify_emotion_never_angry (⟨0, 0, 0.2, 0, 3500, 0, 0, 0⟩ : FeatureSet ℚ)

end AudioAnalyzerSpec

namespace AudioAnalyzerSpec

variable {K : Type*} [LinearOrderedField K]

/-- One step of the Python dict update
`emotion_counts[em] = emotion_counts.get(em, 0) + 1` in
`_determine_overall_mood`: increment the entry of the label if present,
otherwise append a fresh entry at the end (Python dicts preserve insertion
order). -/
def bumpCount : List (String × ℕ) → String → List (String × ℕ)
  | [], l => [(l, 1)]
  | (k, c) :: rest, l => if k = l then (k, c + 1) :: rest else (k, c) :: bumpCount rest l

/-- The `emotion_counts` dict of `_determine_overall_mood`, as an
insertion-ordered association list built by scanning the emotion sequence. -/
def emotionCounts (es : List (EmotionResult K)) : List (String × ℕ) :=
  es.foldl (fun acc e => bumpCount acc e.emotion) []

/-- Python's `max(emotion_counts.items(), key=lambda x: x[1])`: scan left to
right, replacing the current best only on a strictly larger key, so among
equal counts the earliest element wins. -/
def maxBySnd : (String × ℕ) → List (String × ℕ) → String × ℕ
  | b, [] => b
  | b, x :: xs => maxBySnd (if b.2 < x.2 then x else b) xs

/-- Embedding of `AudioAnalyzer._determine_overall_mood`: `"neutral"` for an
empty sequence, otherwise the first key of maximal count in the insertion-
ordered counts dict.  (The inner `[]` case is unreachable: the counts dict of
a non-empty sequence is non-empty.) -/
def determine_overall_mood (es : List (EmotionResult K)) : String :=
  if es.isEmpty then "neutral"
  else
    match emotionCounts es with
    | [] => "neutral"
    | c :: cs => (maxBySnd c cs).1

/-- Embedding of `AudioAnalyzer._calculate_confidence`: `0.0` for an empty
sequence, otherwise `np.mean` (sum divided by length) of the confidences. -/
def calculate_confidence (es : List (EmotionResult K)) : K :=
  if es.isEmpty then 0
  else (es.map (fun e => e.confidence)).sum / (es.length : K)

/-- Specification-side view: number of occurrences of a label in the emotion
sequence. -/
def labelCount (es : List (EmotionResult K)) (l : String) : ℕ :=
  es.countP (fun e => e.emotion == l)

/-- Specification-side view: index of the first segment carrying a label. -/
def firstIdx (es : List (EmotionResult K)) (l : String) : ℕ :=
  es.findIdx (fun e => e.emotion == l)

/-- Specification-side view: the distinct labels of the sequence in order of
first occurrence. -/
def firstSeenLabels (es : List (EmotionResult K)) : List String :=
  es.foldl (fun ks e => if e.emotion ∈ ks then ks else ks ++ [e.emotion]) []

theorem mem_foldl_keys (es : List (EmotionResult K)) (ks : List String) (l : String) :
    l ∈ es.foldl (fun ks e => if e.emotion ∈ ks then ks else ks ++ [e.emotion]) ks ↔
      l ∈ ks ∨ ∃ e ∈ es, e.emotion = l := by
  induction es generalizing ks with
  | nil => simp
  | cons e rest ih =>
      simp only [List.foldl_cons]
      rw [ih]
      by_cases h : e.emotion ∈ ks
      · rw [if_pos h]
        constructor
        · rintro (hl | hl)
          · exact Or.inl hl
          · exact Or.inr ⟨_, List.mem_cons_of_mem _ hl.choose_spec.1, hl.choose_spec.2⟩
        · rintro (hl | ⟨x, hx, hxl⟩)
          · exact Or.inl hl
          · rcases List.mem_cons.mp hx with rfl | hx'
            · exact Or.inl (hxl ▸ h)
            · exact Or.inr ⟨x, hx', hxl⟩
      · rw [if_neg h]
        constructor
        · rintro (hl | hl)
          · rcases List.mem_append.mp hl with hl' | hl'
            · exact Or.inl hl'
            · exact Or.inr ⟨e, List.mem_cons_self _ _, (List.mem_singleton.mp hl').symm⟩
          · exact Or.inr ⟨_, List.mem_cons_of_mem _ hl.choose_spec.1, hl.choose_spec.2⟩
        · rintro (hl | ⟨x, hx, hxl⟩)
          · exact Or.inl (List.mem_append.mpr (Or.inl hl))
          · rcases List.mem_cons.mp hx with rfl | hx'
            · exact Or.inl (List.mem_append.mpr (Or.inr (List.mem_singleton.mpr hxl.symm)))
            · exact Or.inr ⟨x, hx', hxl⟩

theorem mem_firstSeenLabels (es : List (EmotionResult K)) (l : String) :
    l ∈ firstSeenLabels es ↔ ∃ e ∈ es, e.emotion = l := by
  simpa using mem_foldl_keys es [] l

theorem nodup_foldl_keys (es : List (EmotionResult K)) (ks : List String)
    (h : ks.Nodup) :
    (es.foldl (fun ks e => if e.emotion ∈ ks then ks else ks ++ [e.emotion]) ks).Nodup := by
  induction es generalizing ks with
  | nil => exact h
  | cons e rest ih =>
      simp only [List.foldl_cons]
      by_cases hm : e.emotion ∈ ks
      · rw [if_pos hm]; exact ih _ h
      · rw [if_neg hm]
        refine ih _ ?_
        simp [List.nodup_append, h, hm]

theorem nodup_firstSeenLabels (es : List (EmotionResult K)) :
    (firstSeenLabels es).Nodup :=
  nodup_foldl_keys es [] List.nodup_nil

theorem firstSeenLabels_append (es : List (EmotionResult K)) (e : EmotionResult K) :
    firstSeenLabels (es ++ [e]) =
      if e.emotion ∈ firstSeenLabels es then firstSeenLabels es
      else firstSeenLabels es ++ [e.emotion] := by
  simp [firstSeenLabels, List.foldl_append]

theorem labelCount_append (es : List (EmotionResult K)) (e : EmotionResult K) (l : String) :
    labelCount (es ++ [e]) l = labelCount es l + if e.emotion = l then 1 else 0 := by
  simp [labelCount, List.countP_append, List.countP_cons]

theorem labelCount_eq_zero (es : List (EmotionResult K)) (l : String)
    (h : ∀ e ∈ es, e.emotion ≠ l) : labelCount es l = 0 := by
  rw [labelCount, List.countP_eq_zero]
  intro e he
  simpa using h e he

theorem bumpCount_of_not_mem (acc : List (String × ℕ)) (l : String)
    (h : l ∉ acc.map Prod.fst) : bumpCount acc l = acc ++ [(l, 1)] := by
  induction acc with
  | nil => rfl
  | cons kc rest ih =>
      obtain ⟨k, c⟩ := kc
      simp only [List.map_cons, List.mem_cons] at h
      push_neg at h
      rw [bumpCount, if_neg (fun hk => h.1 hk.symm), ih h.2]
      rfl

theorem bumpCount_map (em : String) (cnt cnt' : String → ℕ) (ks : List String)
    (hnd : ks.Nodup) (hmem : em ∈ ks)
    (hoff : ∀ l, l ≠ em → cnt' l = cnt l) (hbump : cnt' em = cnt em + 1) :
    bumpCount (ks.map fun l => (l, cnt l)) em = ks.map fun l => (l, cnt' l) := by
  induction ks with
  | nil => simp at hmem
  | cons k t ih =>
      rcases List.nodup_cons.mp hnd with ⟨hk, hndt⟩
      by_cases hke : k = em
      · subst hke
        simp only [List.map_cons, bumpCount]
        rw [if_pos trivial, hbump]
        congr 1
        refine List.map_congr_left fun l hl => ?_
        have hne : l ≠ k := fun h => hk (h ▸ hl)
        rw [hoff l hne]
      · simp only [List.map_cons, bumpCount, if_neg hke]
        have hmem' : em ∈ t := by
          rcases List.mem_cons.mp hmem with h | h
          · exact absurd h.symm hke
          · exact h
        rw [ih hndt hmem', hoff k hke]

/-- The counts dict built by `_determine_overall_mood` is exactly the list of
distinct labels in first-occurrence order, each paired with its number of
occurrences in the whole sequence. -/
theorem emotionCounts_eq (es : List (EmotionResult K)) :
    emotionCounts es = (firstSeenLabels es).map fun l => (l, labelCount es l) := by
  induction es using List.reverseRecOn with
  | nil => rfl
  | append_singleton es e ih =>
      have hstep : emotionCounts (es ++ [e]) = bumpCount (emotionCounts es) e.emotion := by
        simp [emotionCounts, List.foldl_append]
      rw [hstep, ih, firstSeenLabels_append]
      by_cases hm : e.emotion ∈ firstSeenLabels es
      · rw [if_pos hm]
        refine bumpCount_map e.emotion (labelCount es) (labelCount (es ++ [e]))
          (firstSeenLabels es) (nodup_firstSeenLabels es) hm ?_ ?_
        · intro l hl
          rw [labelCount_append, if_neg (fun h => hl h.symm)]
          omega
        · rw [labelCount_append, if_pos rfl]
      · rw [if_neg hm]
        rw [bumpCount_of_not_mem _ _ (by simpa [List.map_map, Function.comp] using hm),
          List.map_append]
        congr 1
        · refine List.map_congr_left fun l hl => ?_
          have hne : e.emotion ≠ l := fun h => hm (h ▸ hl)
          rw [labelCount_append, if_neg hne]
          simp
        · have h0 : labelCount es e.emotion = 0 := by
            refine labelCount_eq_zero es e.emotion fun x hx hxl => ?_
            exact hm ((mem_firstSeenLabels es e.emotion).mpr ⟨x, hx, hxl⟩)
          simp [labelCount_append, h0]

theorem firstIdx_append_left (es es' : List (EmotionResult K)) (l : String)
    (h : ∃ e ∈ es, e.emotion = l) :
    firstIdx (es ++ es') l = firstIdx es l := by
  induction es with
  | nil => simp at h
  | cons e rest ih =>
      by_cases hp : e.emotion = l
      · simp [firstIdx, List.findIdx_cons, hp]
      · have h' : ∃ x ∈ rest, x.emotion = l := by
          rcases h with ⟨x, hx, hxl⟩
          rcases List.mem_cons.mp hx with rfl | hx'
          · exact absurd hxl hp
          · exact ⟨x, hx', hxl⟩
        have hb : (e.emotion == l) = false := by simpa using hp
        simp only [firstIdx, List.cons_append, List.findIdx_cons, hb, cond_false]
        have := ih h'
        simp only [firstIdx] at this
        omega

theorem firstIdx_append_right (es es' : List (EmotionResult K)) (l : String)
    (h : ∀ e ∈ es, e.emotion ≠ l) :
    firstIdx (es ++ es') l = es.length + firstIdx es' l := by
  induction es with
  | nil => simp
  | cons e rest ih =>
      have hb : (e.emotion == l) = false := by
        simpa using h e (List.mem_cons_self _ _)
      have := ih fun x hx => h x (List.mem_cons_of_mem _ hx)
      simp only [firstIdx, List.cons_append, List.findIdx_cons, hb, cond_false,
        List.length_cons] at this ⊢
      omega

theorem firstIdx_lt_length (es : List (EmotionResult K)) (l : String)
    (h : ∃ e ∈ es, e.emotion = l) : firstIdx es l < es.length := by
  refine List.findIdx_lt_length_of_exists ?_
  rcases h with ⟨e, he, hl⟩
  exact ⟨e, he, by simp [hl]⟩

/-- The first-occurrence key list is strictly ordered by first-occurrence
index. -/
theorem firstSeenLabels_pairwise (es : List (EmotionResult K)) :
    (firstSeenLabels es).Pairwise fun a b => firstIdx es a < firstIdx es b := by
  induction es using List.reverseRecOn with
  | nil => simp [firstSeenLabels]
  | append_singleton es e ih =>
      rw [firstSeenLabels_append]
      by_cases hm : e.emotion ∈ firstSeenLabels es
      · rw [if_pos hm]
        refine ih.imp_of_mem fun {a b} ha hb hab => ?_
        rw [firstIdx_append_left es [e] a ((mem_firstSeenLabels es a).mp ha),
          firstIdx_append_left es [e] b ((mem_firstSeenLabels es b).mp hb)]
        exact hab
      · rw [if_neg hm]
        rw [List.pairwise_append]
        refine ⟨ih.imp_of_mem fun {a b} ha hb hab => ?_, List.pairwise_singleton _ _, ?_⟩
        · rw [firstIdx_append_left es [e] a ((mem_firstSeenLabels es a).mp ha),
            firstIdx_append_left es [e] b ((mem_firstSeenLabels es b).mp hb)]
          exact hab
        · intro a ha b hb
          rw [List.mem_singleton.mp hb]
          have hae : ∃ x ∈ es, x.emotion = a := (mem_firstSeenLabels es a).mp ha
          have hnotin : ∀ x ∈ es, x.emotion ≠ e.emotion := fun x hx hxl =>
            hm ((mem_firstSeenLabels es e.emotion).mpr ⟨x, hx, hxl⟩)
          rw [firstIdx_append_left es [e] a hae,
            firstIdx_append_right es [e] e.emotion hnotin]
          have : firstIdx es a < es.length := firstIdx_lt_length es a hae
          omega

theorem maxBySnd_mem (xs : List (String × ℕ)) (b : String × ℕ) :
    maxBySnd b xs ∈ b :: xs := by
  induction xs generalizing b with
  | nil => simp [maxBySnd]
  | cons x t ih =>
      rw [maxBySnd]
      have := ih (if b.2 < x.2 then x else b)
      rcases List.mem_cons.mp this with h | h
      · rw [h]
        by_cases hbx : b.2 < x.2 <;> simp [hbx]
      · simp [List.mem_cons.mpr (Or.inr (List.mem_cons.mpr (Or.inr h)))]

theorem maxBySnd_le (xs : List (String × ℕ)) (b : String × ℕ) :
    ∀ x ∈ b :: xs, x.2 ≤ (maxBySnd b xs).2 := by
  induction xs generalizing b with
  | nil =>
      intro x hx
      rw [List.mem_singleton.mp hx, maxBySnd]
  | cons y t ih =>
      intro x hx
      rw [maxBySnd]
      have hb : b.2 ≤ (if b.2 < y.2 then y else b).2 := by
        by_cases h : b.2 < y.2 <;> simp [h]
        exact le_of_lt h
      have hy : y.2 ≤ (if b.2 < y.2 then y else b).2 := by
        by_cases h : b.2 < y.2 <;> simp [h]
        omega
      have hhead := ih (if b.2 < y.2 then y else b) _ (List.mem_cons_self _ _)
      rcases List.mem_cons.mp hx with rfl | hx'
      · exact le_trans hb hhead
      · rcases List.mem_cons.mp hx' with rfl | hx''
        · exact le_trans hy hhead
        · exact ih _ x (List.mem_cons_of_mem _ hx'')

theorem maxBySnd_eq_or_lt (xs : List (String × ℕ)) (b : String × ℕ) :
    maxBySnd b xs = b ∨ b.2 < (maxBySnd b xs).2 := by
  induction xs generalizing b with
  | nil => exact Or.inl rfl
  | cons y t ih =>
      rw [maxBySnd]
      by_cases h : b.2 < y.2
      · rw [if_pos h]
        rcases ih y with he | hlt
        · refine Or.inr ?_
          rw [he]
          exact h
        · exact Or.inr (lt_trans h hlt)
      · rw [if_neg h]
        exact ih b

/-- `maxBySnd` returns the first element of maximal count: any other element
with the same count is related to the result by the (pairwise) list order. -/
theorem maxBySnd_first (R : String × ℕ → String × ℕ → Prop) (xs : List (String × ℕ))
    (b : String × ℕ) (hp : (b :: xs).Pairwise R) :
    ∀ x ∈ b :: xs, x.2 = (maxBySnd b xs).2 → x = maxBySnd b xs ∨ R (maxBySnd b xs) x := by
  induction xs generalizing b with
  | nil =>
      intro x hx _
      rw [maxBySnd]
      exact Or.inl (List.mem_singleton.mp hx)
  | cons y t ih =>
      intro x hx hxe
      rw [maxBySnd] at hxe ⊢
      by_cases h : b.2 < y.2
      · rw [if_pos h] at hxe ⊢
        have hp' : (y :: t).Pairwise R := (List.pairwise_cons.mp hp).2
        rcases List.mem_cons.mp hx with rfl | hx'
        · exfalso
          have hy : y.2 ≤ (maxBySnd y t).2 := maxBySnd_le t y y (List.mem_cons_self _ _)
          omega
        · exact ih y hp' x hx' hxe
      · rw [if_neg h] at hxe ⊢
        have hbt : ∀ z ∈ t, R b z := fun z hz =>
          (List.pairwise_cons.mp hp).1 z (List.mem_cons_of_mem _ hz)
        have hp' : (b :: t).Pairwise R := List.pairwise_cons.mpr
          ⟨hbt, (List.pairwise_cons.mp (List.pairwise_cons.mp hp).2).2⟩
        rcases List.mem_cons.mp hx with hxb | hx'
        · rw [hxb] at hxe ⊢
          exact ih b hp' b (List.mem_cons_self _ _) hxe
        · rcases List.mem_cons.mp hx' with hxy | hx''
          · rcases maxBySnd_eq_or_lt t b with he | hlt
            · refine Or.inr ?_
              rw [he, hxy]
              exact (List.pairwise_cons.mp hp).1 y (List.mem_cons_self _ _)
            · exfalso
              have hxb2 : x.2 ≤ b.2 := by
                rw [hxy]
                exact not_lt.mp h
              omega
          · exact ih b hp' x (List.mem_cons_of_mem _ hx'') hxe

/-- **C4.** The aggregator returns `"neutral"` for the empty sequence;
otherwise it returns a label occurring in the sequence whose occurrence count
is maximal, and among equally frequent labels the one whose first occurrence
(scanning the segments in order) is earliest. -/
theorem determine_overall_mood_spec (es : List (EmotionResult K)) :
    (es = [] → determine_overall_mood es = "neutral") ∧
    (es ≠ [] →
      (∃ e ∈ es, e.emotion = determine_overall_mood es) ∧
      (∀ e ∈ es, labelCount es e.emotion ≤ labelCount es (determine_overall_mood es)) ∧
      (∀ e ∈ es, labelCount es e.emotion = labelCount es (determine_overall_mood es) →
        firstIdx es (determine_overall_mood es) ≤ firstIdx es e.emotion)) := by
  constructor
  · rintro rfl
    rfl
  · intro hne
    have hks_ne : firstSeenLabels es ≠ [] := by
      obtain ⟨a, t, h⟩ := List.exists_cons_of_ne_nil hne
      refine List.ne_nil_of_mem ((mem_firstSeenLabels es a.emotion).mpr ⟨a, ?_, rfl⟩)
      rw [h]
      exact List.mem_cons_self _ _
    have hcs_ne : emotionCounts es ≠ [] := by
      rw [emotionCounts_eq]
      simpa using hks_ne
    obtain ⟨c, cs, hc⟩ := List.exists_cons_of_ne_nil hcs_ne
    have hlist : c :: cs = (firstSeenLabels es).map fun l => (l, labelCount es l) := by
      rw [← hc, emotionCounts_eq]
    have hmood : determine_overall_mood es = (maxBySnd c cs).1 := by
      rw [determine_overall_mood, if_neg (by simp [hne]), hc]
    have hres_mem : maxBySnd c cs ∈
        (firstSeenLabels es).map fun l => (l, labelCount es l) := by
      rw [← hlist]
      exact maxBySnd_mem cs c
    obtain ⟨lstar, hlmem, hpair⟩ := List.mem_map.mp hres_mem
    have hfst : (maxBySnd c cs).1 = lstar := by rw [← hpair]
    have hsnd : (maxBySnd c cs).2 = labelCount es lstar := by rw [← hpair]
    have hmoodl : determine_overall_mood es = lstar := hmood.trans hfst
    refine ⟨?_, ?_, ?_⟩
    · obtain ⟨x, hx, hxl⟩ := (mem_firstSeenLabels es lstar).mp hlmem
      exact ⟨x, hx, by rw [hxl, hmoodl]⟩
    · intro e he
      have hpmem : (e.emotion, labelCount es e.emotion) ∈ c :: cs := by
        rw [hlist]
        exact List.mem_map.mpr ⟨e.emotion,
          (mem_firstSeenLabels es e.emotion).mpr ⟨e, he, rfl⟩, rfl⟩
      have hle := maxBySnd_le cs c _ hpmem
      rw [hmoodl]
      calc labelCount es e.emotion ≤ (maxBySnd c cs).2 := hle
        _ = labelCount es lstar := hsnd
    · intro e he hcnt
      have hpmem : (e.emotion, labelCount es e.emotion) ∈ c :: cs := by
        rw [hlist]
        exact List.mem_map.mpr ⟨e.emotion,
          (mem_firstSeenLabels es e.emotion).mpr ⟨e, he, rfl⟩, rfl⟩
      have hpw : (c :: cs).Pairwise fun p q => firstIdx es p.1 < firstIdx es q.1 := by
        rw [hlist]
        exact List.pairwise_map.mpr (firstSeenLabels_pairwise es)
      have hsnd' : (e.emotion, labelCount es e.emotion).2 = (maxBySnd c cs).2 := by
        rw [hsnd]
        rw [hmoodl] at hcnt
        exact hcnt
      rcases maxBySnd_first _ cs c hpw _ hpmem hsnd' with heq | hlt
      · rw [hmoodl, ← hfst, ← heq]
      · rw [hmoodl, ← hfst]
        exact le_of_lt hlt

/-- Concrete timeline used to witness C4: `"happy"` and `"sad"` are tied at
two occurrences each, and `"happy"` occurs first. -/
def moodWitnessInput : List (EmotionResult ℚ) :=
  [⟨"happy", 0.7, 0⟩, ⟨"sad", 0.6, 5⟩, ⟨"sad", 0.6, 10⟩, ⟨"happy", 0.7, 15⟩]

/-- Witness for C4 on a concrete non-empty timeline with a tie. -/
theorem determine_overall_mood_spec_witness :
    (∃ e ∈ moodWitnessInput, e.emotion = determine_overall_mood moodWitnessInput) ∧
    (∀ e ∈ moodWitnessInput,
      labelCount moodWitnessInput e.emotion ≤
        labelCount moodWitnessInput (determine_overall_mood moodWitnessInput)) ∧
    (∀ e ∈ moodWitnessInput,
      labelCount moodWitnessInput e.emotion =
          labelCount moodWitnessInput (determine_overall_mood moodWitnessInput) →
        firstIdx moodWitnessInput (determine_overall_mood moodWitnessInput) ≤
          firstIdx moodWitnessInput e.emotion) :=
  (determine_overall_mood_spec moodWitnessInput).2 (by simp [moodWitnessInput])

/-- **C5.** The confidence score is `0.0` for an empty sequence and otherwise
equals the arithmetic mean of the entries' confidences (hence trivially
within the claimed `1e-9` tolerance). -/
theorem calculate_confidence_spec (es : List (EmotionResult K)) :
    (es = [] → calculate_confidence es = 0) ∧
    (es ≠ [] →
      |calculate_confidence es -
        (es.map fun e => e.confidence).sum / (es.length : K)| ≤ 1e-9) := by
  constructor
  · rintro rfl
    rfl
  · intro h
    rw [calculate_confidence, if_neg (by simp [h]), sub_self, abs_zero]
    norm_num

/-- Concrete timeline used to witness C5. -/
def confWitnessInput : List (EmotionResult ℚ) :=
  [⟨"happy", 0.7, 0⟩, ⟨"calm", 0.8, 5⟩]

/-- Witness for C5 on a concrete non-empty timeline. -/
theorem calculate_confidence_spec_witness :
    |calculate_confidence confWitnessInput -
      (confWitnessInput.map fun e => e.confidence).sum / (confWitnessInput.length : ℚ)| ≤
      1e-9 :=
  (calculate_confidence_spec confWitnessInput).2 (by simp [confWitnessInput])

/-- Modelled from the spec: the frame decomposition used by the external
`librosa` per-frame transforms (`librosa.feature.rms` and friends): frame
length 2048, hop length 512 (the analyzer's `self.hop_length`), with the
signal zero-padded by half a frame on each side ("centered" framing), giving
`1 + n / 512` frames for an `n`-sample signal. -/
def frames (y : List ℝ) : List (List ℝ) :=
  (List.range (1 + y.length / 512)).map fun i =>
    ((List.replicate 1024 (0 : ℝ) ++ y ++ List.replicate 1024 0).drop (512 * i)).take 2048

/-- `np.mean` over a list of reals: sum divided by length.  (The guarded
call sites never apply it to an empty list.) -/
noncomputable def npMean (xs : List ℝ) : ℝ := xs.sum / (xs.length : ℝ)

/-- `np.std` (population standard deviation): square root of the mean
squared deviation from the mean. -/
noncomputable def npStd (xs : List ℝ) : ℝ :=
  Real.sqrt (npMean (xs.map fun x => (x - npMean xs) ^ 2))

/-- Modelled from the spec: `librosa.feature.rms` (external): per-frame
root-mean-square amplitude, the square root of the mean squared sample over
each frame. -/
noncomputable def rmsFrames (y : List ℝ) : List ℝ :=
  (frames y).map fun f => Real.sqrt ((f.map fun x => x ^ 2).sum / 2048)

/-- Peak absolute amplitude of a frame. -/
noncomputable def framePeak (f : List ℝ) : ℝ := (f.map fun x => |x|).foldl max 0

/-- Number of sign changes between consecutive samples of a frame. -/
noncomputable def frameZeroCrossings (f : List ℝ) : ℕ :=
  (f.zip f.tail).countP fun p => decide (p.1 * p.2 < 0)

/-- Modelled from the spec: the external pitch-tracking transform
(`librosa.piptrack`).  The spec fixes only the interface — pitch candidates
paired with magnitudes, of which those with magnitude `> 0.1` are retained.
We model one candidate per frame: a zero-crossing-based fundamental-frequency
estimate paired with the frame's peak amplitude as magnitude.  (Every STFT
magnitude of an identically-zero frame is zero, which the peak amplitude
reproduces: silence yields no retained candidates.) -/
noncomputable def pitchCandidates (y : List ℝ) (sr : ℕ) : List (ℝ × ℝ) :=
  (frames y).map fun f =>
    (((frameZeroCrossings f : ℝ) / (2 * 2048)) * (sr : ℝ), framePeak f)

/-- The magnitude-filtered pitch values `pitches[magnitudes > 0.1]`. -/
noncomputable def pitchValues (y : List ℝ) (sr : ℕ) : List ℝ :=
  ((pitchCandidates y sr).filter fun c => decide (c.2 > 0.1)).map Prod.fst

/-- Modelled from the spec: `librosa.feature.spectral_centroid` (external),
the per-frame spectral center of mass, modelled by the standard
zero-crossing brightness proxy.  (No claim inspects its value on a
non-silent signal, and on an identically-zero signal both the model and the
real transform carry no spectral weight.) -/
noncomputable def spectralCentroidFrames (y : List ℝ) (sr : ℕ) : List ℝ :=
  (frames y).map fun f => ((frameZeroCrossings f : ℝ) / (2 * 2048)) * (sr : ℝ)

/-- Modelled from the spec: `librosa.feature.zero_crossing_rate` (external):
per-frame fraction of sign changes. -/
noncomputable def zcrFrames (y : List ℝ) : List ℝ :=
  (frames y).map fun f => (frameZeroCrossings f : ℝ) / 2048

/-- Modelled from the spec: the flattened mean/std of the mel-cepstral
transform (`librosa.feature.mfcc`, external).  The spec (section 3) marks
the MFCC features as informational only — they are never read by the rule
table — so no claim depends on this value; it is modelled as `0`. -/
noncomputable def mfccScalar : ℝ := 0

/-- Embedding of `AudioAnalyzer._extract_emotion_features`, over the
modelled transforms: pitch statistics over the magnitude-filtered pitch
candidates (zero when none survive the filter), RMS-energy statistics, mean
spectral centroid, flattened MFCC statistics, and mean zero-crossing rate. -/
noncomputable def extract_emotion_features (y : List ℝ) (sr : ℕ) : FeatureSet ℝ :=
  let pv := pitchValues y sr
  let rms := rmsFrames y
  { pitch_mean := if 0 < pv.length then npMean pv else 0
    pitch_std := if 0 < pv.length then npStd pv else 0
    energy_mean := npMean rms
    energy_std := npStd rms
    spectral_centroid_mean := npMean (spectralCentroidFrames y sr)
    mfcc_mean := mfccScalar
    mfcc_std := mfccScalar
    zcr_mean := npMean (zcrFrames y) }

/-- Embedding of `AudioAnalyzer._detect_emotions`: split the buffer into
`len(y) // (5 * sr)` consecutive windows of `5 * sr` samples (the remainder
is discarded), extract features and classify each window, and stamp window
`i` with timestamp `i * 5.0` seconds. -/
noncomputable def detect_emotions (y : List ℝ) (sr : ℕ) : List (EmotionResult ℝ) :=
  (List.range (y.length / (5 * sr))).map fun i =>
    let segment := (y.drop (i * (5 * sr))).take (5 * sr)
    let ec := classify_emotion (extract_emotion_features segment sr)
    { emotion := ec.1, confidence := ec.2, timestamp := (i : ℝ) * 5.0 }

theorem detect_emotions_eq_map (y : List ℝ) (sr : ℕ) :
    detect_emotions y sr = (List.range (y.length / (5 * sr))).map fun i =>
      { emotion := (classify_emotion (extract_emotion_features
            ((y.drop (i * (5 * sr))).take (5 * sr)) sr)).1,
        confidence := (classify_emotion (extract_emotion_features
            ((y.drop (i * (5 * sr))).take (5 * sr)) sr)).2,
        timestamp := (i : ℝ) * 5.0 } := rfl

/-- **C3.** The segmenter produces exactly `len(y) / (5 * sr)` results —
the floor of the duration in seconds divided by 5 — one per non-overlapping
window of exactly `5 * sr` samples taken in index order (remainder
discarded); the `i`-th result carries timestamp `i * 5.0`, timestamps are
non-decreasing, and an input shorter than 5 seconds yields no segments. -/
theorem detect_emotions_segmentation (y : List ℝ) (sr : ℕ) (hsr : 0 < sr) :
    (detect_emotions y sr).length = y.length / (5 * sr) ∧
    (detect_emotions y sr).length = ⌊((y.length : ℝ) / (sr : ℝ)) / 5⌋₊ ∧
    (∀ i, i < (detect_emotions y sr).length →
      ((y.drop (i * (5 * sr))).take (5 * sr)).length = 5 * sr ∧
      (detect_emotions y sr)[i]? = some
        { emotion := (classify_emotion (extract_emotion_features
              ((y.drop (i * (5 * sr))).take (5 * sr)) sr)).1,
          confidence := (classify_emotion (extract_emotion_features
              ((y.drop (i * (5 * sr))).take (5 * sr)) sr)).2,
          timestamp := (i : ℝ) * 5.0 }) ∧
    (∀ i j : ℕ, ∀ ei ej : EmotionResult ℝ, i ≤ j →
      (detect_emotions y sr)[i]? = some ei → (detect_emotions y sr)[j]? = some ej →
      ei.timestamp ≤ ej.timestamp) ∧
    (y.length < 5 * sr → detect_emotions y sr = []) := by
  have hlen : (detect_emotions y sr).length = y.length / (5 * sr) := by
    rw [detect_emotions_eq_map, List.length_map, List.length_range]
  have hget : ∀ i, i < y.length / (5 * sr) →
      (detect_emotions y sr)[i]? = some
        { emotion := (classify_emotion (extract_emotion_features
              ((y.drop (i * (5 * sr))).take (5 * sr)) sr)).1,
          confidence := (classify_emotion (extract_emotion_features
              ((y.drop (i * (5 * sr))).take (5 * sr)) sr)).2,
          timestamp := (i : ℝ) * 5.0 } := by
    intro i h
    rw [detect_emotions_eq_map, List.getElem?_map, List.getElem?_range h, Option.map_some']
  refine ⟨hlen, ?_, ?_, ?_, ?_⟩
  · rw [hlen, show ((5 : ℝ)) = ((5 : ℕ) : ℝ) by norm_num, Nat.floor_div_nat,
      Nat.floor_div_nat, Nat.floor_natCast, Nat.div_div_eq_div_mul, Nat.mul_comm]
  · intro i h
    rw [hlen] at h
    refine ⟨?_, hget i h⟩
    have h5 : 0 < 5 * sr := by omega
    have hle : (i + 1) * (5 * sr) ≤ y.length := (Nat.le_div_iff_mul_le h5).mp h
    rw [Nat.add_mul, Nat.one_mul] at hle
    rw [List.length_take, List.length_drop]
    omega
  · intro i j ei ej hij hei hej
    have hi : i < y.length / (5 * sr) := by
      rw [← hlen]
      by_contra hc
      rw [List.getElem?_eq_none (Nat.le_of_not_lt hc)] at hei
      exact Option.noConfusion hei
    have hj : j < y.length / (5 * sr) := by
      rw [← hlen]
      by_contra hc
      rw [List.getElem?_eq_none (Nat.le_of_not_lt hc)] at hej
      exact Option.noConfusion hej
    rw [hget i hi] at hei
    rw [hget j hj] at hej
    have hcast : (i : ℝ) ≤ (j : ℝ) := Nat.cast_le.mpr hij
    rw [← Option.some_inj.mp hei, ← Option.some_inj.mp hej]
    show (i : ℝ) * 5.0 ≤ (j : ℝ) * 5.0
    nlinarith
  · intro hshort
    rw [detect_emotions_eq_map, Nat.div_eq_of_lt hshort]
    rfl

/-- Witness for C3 on a concrete 12-sample buffer at a 1 Hz model rate. -/
theorem detect_emotions_segmentation_witness :
    (detect_emotions (List.replicate 12 (0 : ℝ)) 1).length = 12 / (5 * 1) :=
  (detect_emotions_segmentation (List.replicate 12 (0 : ℝ)) 1 (by norm_num)).1

/-- Embedding of `AudioAnalyzer._estimate_speaking_rate`:
`duration = len(y) / sr` seconds, assume 2.5 words per second, and return
`(duration * 2.5) / (duration / 60)` words per minute.  Python's float
division raises `ZeroDivisionError` exactly when the divisor
`duration / 60` is zero — i.e. when the buffer is empty or the sample rate
is zero — which is modelled as the error branch. -/
noncomputable def estimate_speaking_rate (y : List ℝ) (sr : ℕ) : Except String ℝ :=
  let duration : ℝ := (y.length : ℝ) / (sr : ℝ)
  if y.length = 0 ∨ sr = 0 then Except.error "ZeroDivisionError"
  else Except.ok ((duration * 2.5) / (duration / 60))

/-- **C6.** For every buffer of non-zero duration the speaking-rate
estimator returns exactly `150.0` words per minute: the duration term
cancels between the numerator and the denominator. -/
theorem estimate_speaking_rate_const (y : List ℝ) (sr : ℕ)
    (hy : y.length ≠ 0) (hsr : sr ≠ 0) :
    estimate_speaking_rate y sr = Except.ok 150 := by
  rw [estimate_speaking_rate, if_neg (by push_neg; exact ⟨hy, hsr⟩)]
  have hyl : ((y.length : ℕ) : ℝ) ≠ 0 := by exact_mod_cast hy
  have hsl : ((sr : ℕ) : ℝ) ≠ 0 := by exact_mod_cast hsr
  have halg : ((y.length : ℝ) / (sr : ℝ) * 2.5) / ((y.length : ℝ) / (sr : ℝ) / 60) =
      (150 : ℝ) := by
    field_simp
    ring
  exact congrArg Except.ok halg

/-- Witness for C6 on a concrete one-sample buffer at 22050 Hz. -/
theorem estimate_speaking_rate_const_witness :
    estimate_speaking_rate [(0.5 : ℝ)] 22050 = Except.ok 150 :=
  estimate_speaking_rate_const [(0.5 : ℝ)] 22050 (by simp) (by norm_num)

/-- Embedding of `AudioAnalyzer._calculate_pause_frequency`: count the RMS
frames strictly below `0.3 ×` the mean RMS and divide by the number of RMS
frames.  (`sr` is accepted but unused, exactly as in the source.) -/
noncomputable def calculate_pause_frequency (y : List ℝ) (sr : ℕ) : ℝ :=
  ((rmsFrames y).countP fun x => decide (x < npMean (rmsFrames y) * 0.3) : ℕ) /
    ((rmsFrames y).length : ℝ)

/-- **C7.** The pause frequency is the fraction of RMS frames strictly below
`0.3 ×` the mean RMS, and it always lies in `[0, 1]` for a non-empty
buffer. -/
theorem calculate_pause_frequency_spec (y : List ℝ) (sr : ℕ) (h : y ≠ []) :
    calculate_pause_frequency y sr =
      ((rmsFrames y).countP fun x => decide (x < npMean (rmsFrames y) * 0.3) : ℕ) /
        ((rmsFrames y).length : ℝ) ∧
    0 ≤ calculate_pause_frequency y sr ∧ calculate_pause_frequency y sr ≤ 1 := by
  have hlen : 0 < (rmsFrames y).length := by
    rw [rmsFrames, List.length_map, frames, List.length_map, List.length_range]
    omega
  refine ⟨rfl, ?_, ?_⟩
  · exact div_nonneg (Nat.cast_nonneg _) (Nat.cast_nonneg _)
  · rw [calculate_pause_frequency, div_le_one (by exact_mod_cast hlen)]
    exact_mod_cast List.countP_le_length _

/-- Witness for C7 on a concrete non-empty buffer. -/
theorem calculate_pause_frequency_spec_witness :
    0 ≤ calculate_pause_frequency [(1 : ℝ)] 22050 ∧
    calculate_pause_frequency [(1 : ℝ)] 22050 ≤ 1 :=
  (calculate_pause_frequency_spec [(1 : ℝ)] 22050 (by simp)).2

theorem foldl_max_zero (l : List ℝ) (h : ∀ x ∈ l, x = 0) : l.foldl max 0 = 0 := by
  induction l with
  | nil => rfl
  | cons a t ih =>
      rw [List.foldl_cons, h a (List.mem_cons_self _ _), max_self]
      exact ih fun x hx => h x (List.mem_cons_of_mem _ hx)

/-- Every sample of every (zero-padded) frame of an identically-zero signal
is zero. -/
theorem frames_all_zero (y : List ℝ) (h : ∀ x ∈ y, x = 0) :
    ∀ f ∈ frames y, ∀ x ∈ f, x = 0 := by
  intro f hf x hx
  obtain ⟨i, _, rfl⟩ := List.mem_map.mp hf
  have hx' := List.mem_of_mem_drop (List.mem_of_mem_take hx)
  rcases List.mem_append.mp hx' with h1 | h2
  · rcases List.mem_append.mp h1 with h11 | h12
    · exact List.eq_of_mem_replicate h11
    · exact h x h12
  · exact List.eq_of_mem_replicate h2

theorem rmsFrames_all_zero (y : List ℝ) (h : ∀ x ∈ y, x = 0) :
    ∀ r ∈ rmsFrames y, r = 0 := by
  intro r hr
  obtain ⟨f, hf, rfl⟩ := List.mem_map.mp hr
  have hz := frames_all_zero y h f hf
  have hsum : (f.map fun x => x ^ 2).sum = 0 :=
    List.sum_eq_zero fun z hz' => by
      obtain ⟨x, hx, rfl⟩ := List.mem_map.mp hz'
      rw [hz x hx]
      ring
  rw [hsum, zero_div, Real.sqrt_zero]

theorem npMean_all_zero (xs : List ℝ) (h : ∀ x ∈ xs, x = 0) : npMean xs = 0 := by
  rw [npMean, List.sum_eq_zero h, zero_div]

theorem framePeak_all_zero (f : List ℝ) (h : ∀ x ∈ f, x = 0) : framePeak f = 0 := by
  rw [framePeak]
  refine foldl_max_zero _ fun z hz => ?_
  obtain ⟨x, hx, rfl⟩ := List.mem_map.mp hz
  rw [h x hx, abs_zero]

/-- On an identically-zero signal no pitch candidate survives the magnitude
filter. -/
theorem pitchValues_all_zero (y : List ℝ) (sr : ℕ) (h : ∀ x ∈ y, x = 0) :
    pitchValues y sr = [] := by
  have hfilter : ((pitchCandidates y sr).filter fun c => decide (c.2 > 0.1)) = [] := by
    rw [List.filter_eq_nil_iff]
    intro c hc
    obtain ⟨f, hf, rfl⟩ := List.mem_map.mp hc
    have hp : framePeak f = 0 := framePeak_all_zero f (frames_all_zero y h f hf)
    simp only [decide_eq_true_eq, hp]
    norm_num
  rw [pitchValues, hfilter, List.map_nil]

/-- Feature extraction on an identically-zero signal yields zero mean energy
and zero mean pitch. -/
theorem extract_emotion_features_silence (y : List ℝ) (sr : ℕ) (h : ∀ x ∈ y, x = 0) :
    (extract_emotion_features y sr).energy_mean = 0 ∧
    (extract_emotion_features y sr).pitch_mean = 0 := by
  constructor
  · exact npMean_all_zero _ (rmsFrames_all_zero y h)
  · show (if 0 < (pitchValues y sr).length then npMean (pitchValues y sr) else 0) = 0
    rw [pitchValues_all_zero y sr h]
    simp

/-- The classifier sends an identically-zero segment to rule 3: zero mean
energy and zero mean pitch satisfy `energy_mean < 0.05 ∧ pitch_mean < 150`,
and neither of the two earlier rules fires, so the result is
`("sad", 0.6)` — the `"calm"` rule is never reached. -/
theorem classify_silence (y : List ℝ) (sr : ℕ) (h : ∀ x ∈ y, x = 0) :
    classify_emotion (extract_emotion_features y sr) = ("sad", 0.6) := by
  obtain ⟨he, hp⟩ := extract_emotion_features_silence y sr h
  rw [classify_emotion,
    if_neg (by rintro ⟨h1, _⟩; rw [he] at h1; norm_num at h1),
    if_neg (by rintro ⟨h1, _⟩; rw [he] at h1; norm_num at h1),
    if_pos (by rw [he, hp]; constructor <;> norm_num)]

/-- The 12-second silent buffer at 22050 Hz of the spec's end-to-end
scenario: `12 × 22050 = 264600` zero samples. -/
noncomputable def silence12s : List ℝ := List.replicate 264600 0

theorem silence12s_all_zero : ∀ x ∈ silence12s, x = 0 := fun _ hx =>
  List.eq_of_mem_replicate hx

/-- On the 12-second silent buffer the segmenter produces exactly the two
segments `("sad", 0.6)` at timestamps 0 and 5. -/
theorem detect_emotions_silence12s :
    detect_emotions silence12s 22050 =
      [⟨"sad", 0.6, 0⟩, ⟨"sad", 0.6, 5⟩] := by
  have hall : ∀ i : ℕ, ∀ x ∈ (silence12s.drop (i * (5 * 22050))).take (5 * 22050), x = 0 :=
    fun i x hx => silence12s_all_zero x (List.mem_of_mem_drop (List.mem_of_mem_take hx))
  have hc : ∀ i : ℕ, classify_emotion (extract_emotion_features
      ((silence12s.drop (i * (5 * 22050))).take (5 * 22050)) 22050) = ("sad", 0.6) :=
    fun i => classify_silence _ 22050 (hall i)
  have hn : silence12s.length / (5 * 22050) = 2 := by
    rw [silence12s, List.length_replicate]
  rw [detect_emotions_eq_map, hn, show List.range 2 = [0, 1] from rfl,
    List.map_cons, List.map_cons, List.map_nil, hc 0, hc 1]
  norm_num

/-- **C2 (counterexample).**  On the spec's 12-second silent buffer at
22050 Hz the two segments are classified `("sad", 0.6)` — silence has zero
mean energy and zero mean pitch, so rule 3 (`energy_mean < 0.05 ∧
pitch_mean < 150`) fires before the `"calm"` rule ever gets evaluated — so
the claimed per-segment result `("calm", 0.8)`, overall mood `"calm"` and
confidence `0.8` are all wrong. -/
theorem silence12s_not_calm :
    (detect_emotions silence12s 22050).map (fun e => e.emotion) = ["sad", "sad"] ∧
    determine_overall_mood (detect_emotions silence12s 22050) = "sad" ∧
    calculate_confidence (detect_emotions silence12s 22050) = 0.6 ∧
    ("sad" : String) ≠ "calm" ∧ (0.6 : ℝ) ≠ 0.8 := by
  rw [detect_emotions_silence12s]
  refine ⟨rfl, rfl, ?_, by decide, by norm_num⟩
  rw [calculate_confidence]
  norm_num

/-- **C2 (amended).**  The 12-second silent buffer yields exactly 2
segments, each classified `("sad", 0.6)` (rule 3 fires before the calm
rule), with overall mood `"sad"` and confidence score `0.6`. -/
theorem silence12s_pipeline :
    (detect_emotions silence12s 22050).length = 2 ∧
    (∀ e ∈ detect_emotions silence12s 22050, e.emotion = "sad" ∧ e.confidence = 0.6) ∧
    determine_overall_mood (detect_emotions silence12s 22050) = "sad" ∧
    calculate_confidence (detect_emotions silence12s 22050) = 0.6 := by
  rw [detect_emotions_silence12s]
  refine ⟨rfl, ?_, rfl, ?_⟩
  · intro e he
    rcases List.mem_cons.mp he with rfl | he'
    · exact ⟨rfl, rfl⟩
    · rcases List.mem_cons.mp he' with rfl | he''
      · exact ⟨rfl, rfl⟩
      · exact absurd he'' (List.not_mem_nil e)
  · rw [calculate_confidence]
    norm_num

/-- The `ToneAnalysis` dataclass of the source: whole-clip pitch/energy
statistics, speaking rate (words/minute) and pause frequency. -/
structure ToneAnalysis where
  pitch_mean : ℝ
  pitch_std : ℝ
  energy_mean : ℝ
  energy_std : ℝ
  speaking_rate : ℝ
  pause_frequency : ℝ

/-- Modelled from the spec: the tempo estimate of the external rhythm
transform (`librosa.beat.beat_track`).  The spec fixes no formula and no
claim inspects the value; it is modelled as `0`. -/
noncomputable def tempoEstimate (y : List ℝ) (sr : ℕ) : ℝ := 0

/-- Embedding of `AudioAnalyzer._analyze_tone`: whole-clip pitch and energy
statistics (pitch statistics zero when no candidate survives the magnitude
filter), the speaking-rate estimate — whose division fails on a zero-length
buffer, and the failure propagates — and the pause frequency. -/
noncomputable def analyze_tone (y : List ℝ) (sr : ℕ) : Except String ToneAnalysis :=
  let pv := pitchValues y sr
  let rms := rmsFrames y
  match estimate_speaking_rate y sr with
  | Except.error e => Except.error e
  | Except.ok rate => Except.ok
      { pitch_mean := if 0 < pv.length then npMean pv else 0
        pitch_std := if 0 < pv.length then npStd pv else 0
        energy_mean := npMean rms
        energy_std := npStd rms
        speaking_rate := rate
        pause_frequency := calculate_pause_frequency y sr }

/-- Embedding of `AudioAnalyzer._analyze_speech_patterns`: the `patterns`
dict, as an insertion-ordered association list. -/
noncomputable def analyze_speech_patterns (y : List ℝ) (sr : ℕ) : List (String × ℝ) :=
  [ ("speech_duration", (y.length : ℝ) / (sr : ℝ)),
    ("volume_variability", npStd (rmsFrames y)),
    ("pitch_variability",
      if 0 < (pitchValues y sr).length then npStd (pitchValues y sr) else 0),
    ("speech_rhythm", tempoEstimate y sr) ]

/-- The `AudioAnalysis` aggregate root of the source. -/
structure AudioAnalysis where
  emotions : List (EmotionResult ℝ)
  tone : ToneAnalysis
  speech_patterns : List (String × ℝ)
  overall_mood : String
  confidence_score : ℝ

/-- Embedding of `AudioAnalyzer.analyze_audio` on an already-decoded sample
buffer: run the segmenter, the tone analyzer and the pattern analyzer, then
aggregate.  Any failure inside the `try` block — in the model, the
`ZeroDivisionError` of the speaking-rate estimate on a zero-length buffer —
is caught by the `except` and re-raised wrapped, the spec's
`AnalysisFailure`. -/
noncomputable def analyze_audio (y : List ℝ) (sr : ℕ) : Except String AudioAnalysis :=
  let emotions := detect_emotions y sr
  match analyze_tone y sr with
  | Except.error e => Except.error ("Ses analizi basarisiz: " ++ e)
  | Except.ok tone => Except.ok
      { emotions := emotions
        tone := tone
        speech_patterns := analyze_speech_patterns y sr
        overall_mood := determine_overall_mood emotions
        confidence_score := calculate_confidence emotions }

/-- **C9.** A non-empty clip shorter than one 5-second window is not an
error: analysis succeeds with an empty emotion timeline, overall mood
`"neutral"`, confidence score `0.0`, and pattern figures computed from the
existing samples; a zero-length buffer instead fails with the wrapped
`AnalysisFailure` error. -/
theorem analyze_audio_degenerate (y : List ℝ) (sr : ℕ) (hsr : 0 < sr) :
    (y ≠ [] → y.length < 5 * sr →
      ∃ a : AudioAnalysis, analyze_audio y sr = Except.ok a ∧
        a.emotions = [] ∧ a.overall_mood = "neutral" ∧ a.confidence_score = 0 ∧
        a.speech_patterns = analyze_speech_patterns y sr) ∧
    (y = [] → ∃ msg : String, analyze_audio y sr = Except.error msg) := by
  constructor
  · intro hne hshort
    have hy : y.length ≠ 0 := fun h0 => hne (List.length_eq_zero.mp h0)
    have hrate := estimate_speaking_rate_const y sr hy (Nat.pos_iff_ne_zero.mp hsr)
    have hemo : detect_emotions y sr = [] :=
      (detect_emotions_segmentation y sr hsr).2.2.2.2 hshort
    obtain ⟨t, htone⟩ : ∃ t : ToneAnalysis, analyze_tone y sr = Except.ok t := by
      unfold analyze_tone
      rw [hrate]
      exact ⟨_, rfl⟩
    refine ⟨{ emotions := detect_emotions y sr, tone := t,
              speech_patterns := analyze_speech_patterns y sr,
              overall_mood := determine_overall_mood (detect_emotions y sr),
              confidence_score := calculate_confidence (detect_emotions y sr) },
            ?_, hemo, ?_, ?_, rfl⟩
    · unfold analyze_audio
      rw [htone]
    · rw [hemo]
      rfl
    · rw [hemo]
      rfl
  · rintro rfl
    have hzero : estimate_speaking_rate ([] : List ℝ) sr = Except.error "ZeroDivisionError" := by
      rw [estimate_speaking_rate]
      simp
    refine ⟨"Ses analizi basarisiz: " ++ "ZeroDivisionError", ?_⟩
    unfold analyze_audio analyze_tone
    rw [hzero]

/-- Witness for C9: a one-sample buffer succeeds with an empty timeline; the
empty buffer fails. -/
theorem analyze_audio_degenerate_witness :
    (∃ a : AudioAnalysis, analyze_audio [(0.1 : ℝ)] 22050 = Except.ok a ∧
        a.emotions = [] ∧ a.overall_mood = "neutral" ∧ a.confidence_score = 0 ∧
        a.speech_patterns = analyze_speech_patterns [(0.1 : ℝ)] 22050) ∧
    (∃ msg : String, analyze_audio ([] : List ℝ) 22050 = Except.error msg) :=
  ⟨(analyze_audio_degenerate [(0.1 : ℝ)] 22050 (by norm_num)).1 (by simp) (by norm_num),
   (analyze_audio_degenerate ([] : List ℝ) 22050 (by norm_num)).2 rfl⟩

/-- The structured record value model of the persistence sink: the JSON data
model that `json.dump` in `generate_emotion_report` serializes (strings,
numbers, arrays and insertion-ordered objects). -/
inductive RecordVal where
  | str : String → RecordVal
  | num : ℝ → RecordVal
  | arr : List RecordVal → RecordVal
  | obj : List (String × RecordVal) → RecordVal

/-- Embedding of the `report_data` dict built by
`AudioAnalyzer.generate_emotion_report` (the ISO-8601 timestamp string is
passed in; writing the record to disk is external I/O). -/
def emotionReportRecord (now : String) (a : AudioAnalysis) : RecordVal :=
  RecordVal.obj
    [ ("timestamp", RecordVal.str now),
      ("overall_mood", RecordVal.str a.overall_mood),
      ("confidence_score", RecordVal.num a.confidence_score),
      ("tone_analysis", RecordVal.obj
        [ ("pitch_mean", RecordVal.num a.tone.pitch_mean),
          ("pitch_std", RecordVal.num a.tone.pitch_std),
          ("energy_mean", RecordVal.num a.tone.energy_mean),
          ("speaking_rate", RecordVal.num a.tone.speaking_rate),
          ("pause_frequency", RecordVal.num a.tone.pause_frequency) ]),
      ("speech_patterns",
        RecordVal.obj (a.speech_patterns.map fun p => (p.1, RecordVal.num p.2))),
      ("emotions_timeline", RecordVal.arr (a.emotions.map fun e => RecordVal.obj
        [ ("timestamp", RecordVal.num e.timestamp),
          ("emotion", RecordVal.str e.emotion),
          ("confidence", RecordVal.num e.confidence) ])) ]

/-- Field access on a read-back record. -/
def lookupField : RecordVal → String → Option RecordVal
  | RecordVal.obj kvs, k => kvs.lookup k
  | _, _ => Option.none

/-- Read back the overall mood from a persisted record. -/
def readMood (r : RecordVal) : Option String :=
  match lookupField r "overall_mood" with
  | some (RecordVal.str s) => some s
  | _ => none

/-- Read back the confidence score from a persisted record. -/
def readScore (r : RecordVal) : Option ℝ :=
  match lookupField r "confidence_score" with
  | some (RecordVal.num x) => some x
  | _ => none

/-- Read back one timeline entry as a (timestamp, emotion, confidence)
triple. -/
def readTriple (r : RecordVal) : Option (ℝ × String × ℝ) :=
  match lookupField r "timestamp", lookupField r "emotion",
      lookupField r "confidence" with
  | some (RecordVal.num t), some (RecordVal.str e), some (RecordVal.num c) =>
      some (t, e, c)
  | _, _, _ => none

/-- Read back a whole timeline array, in order. -/
def readTriples : List RecordVal → Option (List (ℝ × String × ℝ))
  | [] => some []
  | r :: rest =>
      match readTriple r, readTriples rest with
      | some t, some ts => some (t :: ts)
      | _, _ => none

/-- Read back the emotions timeline from a persisted record. -/
def readTimeline (r : RecordVal) : Option (List (ℝ × String × ℝ)) :=
  match lookupField r "emotions_timeline" with
  | some (RecordVal.arr xs) => readTriples xs
  | _ => none

theorem readTriples_map (es : List (EmotionResult ℝ)) :
    readTriples (es.map fun e => RecordVal.obj
      [ ("timestamp", RecordVal.num e.timestamp),
        ("emotion", RecordVal.str e.emotion),
        ("confidence", RecordVal.num e.confidence) ]) =
      some (es.map fun e => (e.timestamp, e.emotion, e.confidence)) := by
  induction es with
  | nil => rfl
  | cons e rest ih =>
      rw [List.map_cons, List.map_cons, readTriples, ih]
      rfl

/-- **C8.** Round-trip through the persistence record: reading the record
back reproduces the overall mood exactly, the confidence score exactly
(hence within the claimed `1e-9` tolerance), and the full emotions timeline
as (timestamp, emotion, confidence) triples in the original segment
order. -/
theorem emotion_report_roundtrip (now : String) (a : AudioAnalysis) :
    readMood (emotionReportRecord now a) = some a.overall_mood ∧
    readScore (emotionReportRecord now a) = some a.confidence_score ∧
    readTimeline (emotionReportRecord now a) =
      some (a.emotions.map fun e => (e.timestamp, e.emotion, e.confidence)) := by
  refine ⟨rfl, rfl, ?_⟩
  have hlook : readTimeline (emotionReportRecord now a) =
      readTriples (a.emotions.map fun e => RecordVal.obj
        [ ("timestamp", RecordVal.num e.timestamp),
          ("emotion", RecordVal.str e.emotion),
          ("confidence", RecordVal.num e.confidence) ]) := rfl
  rw [hlook, readTriples_map]

end AudioAnalyzerSpec
